import Mathlib

/-!
Verification of the chainreader resilience layer (provider pool, TTL cache,
error taxonomy) against its specification.  The repository ships only the
test-suite for these modules; the definitions below are therefore modelled
from the specification (spec.md), with the tests used as additional
constraints on the modelling choices.  Time is passed explicitly as a natural
number of seconds; machine floats for latency are modelled as rationals.
-/

namespace ChainReader

/-- Modelled from the spec: a scalar parameter value as accepted by the cache
layer (Sec. 6 boundary: a parameter mapping with string keys and scalar
values).  The tests exercise string values (addresses, the "latest" tag)
and integer values (block numbers). -/
inductive Val where
  | str : String → Val
  | num : Int → Val
deriving DecidableEq, Repr

/-- Modelled from the spec: a total order on scalar parameter values, used
only to canonicalise parameter mappings.  Numbers sort before strings;
within a constructor the native order is used. -/
def Val.le : Val → Val → Bool
  | .num a, .num b => decide (a ≤ b)
  | .num _, .str _ => true
  | .str _, .num _ => false
  | .str a, .str b => decide (a ≤ b)

/-- Modelled from the spec: the canonicalisation order on (name, value)
pairs — "sort by parameter name before combining" (Sec. 4.2).  For a genuine
parameter mapping the names are distinct, so ordering ties by value is
immaterial; it makes the order antisymmetric on all inputs. -/
def pairLe (a b : String × Val) : Bool :=
  decide (a.1 < b.1) || (decide (a.1 = b.1) && Val.le a.2 b.2)

theorem Val.le_trans : ∀ a b c : Val, Val.le a b → Val.le b c → Val.le a c := by
  intro a b c hab hbc
  cases a <;> cases b <;> cases c <;>
    simp_all only [Val.le, decide_eq_true_eq] <;>
    first
      | exact hab.trans hbc
      | trivial

theorem Val.le_total : ∀ a b : Val, Val.le a b || Val.le b a := by
  intro a b
  cases a <;> cases b <;>
    simp only [Val.le, Bool.or_eq_true, decide_eq_true_eq] <;>
    first
      | exact LinearOrder.le_total _ _
      | trivial

theorem Val.le_antisymm : ∀ a b : Val, Val.le a b → Val.le b a → a = b := by
  intro a b hab hba
  cases a <;> cases b <;>
    simp_all only [Val.le, decide_eq_true_eq, Val.num.injEq, Val.str.injEq] <;>
    first
      | exact hab.antisymm hba
      | trivial

theorem pairLe_trans : ∀ a b c : String × Val, pairLe a b → pairLe b c → pairLe a c := by
  intro a b c hab hbc
  simp only [pairLe, Bool.or_eq_true, Bool.and_eq_true, decide_eq_true_eq] at *
  rcases hab with h1 | ⟨h1, v1⟩ <;> rcases hbc with h2 | ⟨h2, v2⟩
  · exact Or.inl (lt_trans h1 h2)
  · exact Or.inl (h2 ▸ h1)
  · exact Or.inl (h1 ▸ h2)
  · exact Or.inr ⟨h1.trans h2, Val.le_trans _ _ _ v1 v2⟩

theorem pairLe_total : ∀ a b : String × Val, pairLe a b || pairLe b a := by
  intro a b
  simp only [pairLe, Bool.or_eq_true, Bool.and_eq_true, decide_eq_true_eq]
  rcases lt_trichotomy a.1 b.1 with h | h | h
  · tauto
  · rcases Bool.or_eq_true _ _ |>.mp (Val.le_total a.2 b.2) with hv | hv
    · exact Or.inl (Or.inr ⟨h, hv⟩)
    · exact Or.inr (Or.inr ⟨h.symm, hv⟩)
  · tauto

theorem pairLe_antisymm : ∀ a b : String × Val, pairLe a b → pairLe b a → a = b := by
  intro a b hab hba
  simp only [pairLe, Bool.or_eq_true, Bool.and_eq_true, decide_eq_true_eq] at hab hba
  rcases hab with h1 | ⟨h1, v1⟩ <;> rcases hba with h2 | ⟨h2, v2⟩
  · exact absurd h2 (lt_asymm h1)
  · exact absurd h1 (h2 ▸ lt_irrefl _)
  · exact absurd h2 (h1 ▸ lt_irrefl _)
  · exact Prod.ext h1 (Val.le_antisymm _ _ v1 v2)

/-- Modelled from the spec: the canonical form of a parameter mapping —
"represent as an ordered list of (name, typed-scalar) pairs with a
canonicalization step (sort by name) before hashing" (Sec. 9). -/
def canonParams (params : List (String × Val)) : List (String × Val) :=
  params.mergeSort pairLe

/-- Modelled from the spec: `generate_key(method, params)` — a deterministic
fingerprint that incorporates the method name and the canonicalised
parameter list (Sec. 4.2).  The production code hashes a serialisation of this
pair; the model keeps the pair itself, abstracting the hash (whose
collision-freedom the spec states only "with overwhelming probability") as
an injective function. -/
def generate_key (method : String) (params : List (String × Val)) :
    String × List (String × Val) :=
  (method, canonParams params)

theorem canonParams_perm (params : List (String × Val)) :
    (canonParams params).Perm params :=
  List.mergeSort_perm params pairLe

instance : IsAntisymm (String × Val) (fun a b => pairLe a b = true) :=
  ⟨fun a b => pairLe_antisymm a b⟩

theorem canonParams_eq_of_perm {p1 p2 : List (String × Val)} (h : p1.Perm p2) :
    canonParams p1 = canonParams p2 := by
  refine List.eq_of_perm_of_sorted (r := fun a b => pairLe a b = true)
    (((canonParams_perm p1).trans h).trans (canonParams_perm p2).symm) ?_ ?_
  · exact List.sorted_mergeSort pairLe_trans pairLe_total p1
  · exact List.sorted_mergeSort pairLe_trans pairLe_total p2

/-- C3: for every method and all parameter mappings equal as collections of
key/value pairs (permutations of one another), `generate_key` agrees; and
two requests differing in method name or in any parameter value yield
different fingerprints.  Both directions are captured by the equivalence:
the fingerprints coincide exactly when the methods are equal and the
parameter lists are permutations of each other. -/
theorem generate_key_eq_iff (m1 m2 : String) (p1 p2 : List (String × Val)) :
    generate_key m1 p1 = generate_key m2 p2 ↔ m1 = m2 ∧ p1.Perm p2 := by
  constructor
  · intro h
    have hm : m1 = m2 := congrArg Prod.fst h
    have hp : canonParams p1 = canonParams p2 := congrArg Prod.snd h
    exact ⟨hm, ((canonParams_perm p1).symm.trans (hp ▸ canonParams_perm p2))⟩
  · rintro ⟨hm, hp⟩
    simp [generate_key, hm, canonParams_eq_of_perm hp]

/-- Modelled from the spec: one cached result — `value`, `expires_at`
(absolute time, `none` being the permanent marker) and `created_at`
(Sec. 3, CacheEntry). -/
structure CacheEntry (α : Type) where
  value : α
  expires_at : Option Nat
  created_at : Nat
deriving Repr, DecidableEq

/-- Modelled from the spec: the TTL cache — configuration
(`cache_ttl_blocks`, `cache_ttl_latest`, `max_cache_size`), the store as an
insertion-ordered association list (a Python dict), and the lifetime
`hits`/`misses` counters (Sec. 3, CacheStore; Sec. 4.2). -/
structure CacheManager (α : Type) where
  cache_ttl_blocks : Nat
  cache_ttl_latest : Nat
  max_cache_size : Nat
  cache : List (String × CacheEntry α)
  hits : Nat
  misses : Nat
deriving Repr

/-- Association-list lookup, mirroring a Python dict read. -/
def lookupEntry (k : String) : List (String × CacheEntry α) → Option (CacheEntry α)
  | [] => none
  | p :: rest => if p.1 = k then some p.2 else lookupEntry k rest

/-- Removal of the entry stored under a key (first occurrence), mirroring a
Python dict delete. -/
def eraseKey (k : String) : List (String × CacheEntry α) → List (String × CacheEntry α)
  | [] => []
  | p :: rest => if p.1 = k then rest else p :: eraseKey k rest

/-- Dict-style insertion: replace in place when the key exists, append
otherwise (Python dict assignment keeps the original position). -/
def insertEntry (k : String) (e : CacheEntry α) :
    List (String × CacheEntry α) → List (String × CacheEntry α)
  | [] => [(k, e)]
  | p :: rest => if p.1 = k then (k, e) :: rest else p :: insertEntry k e rest

/-- Value lookup of one parameter by name. -/
def lookupParam (name : String) : List (String × Val) → Option Val
  | [] => none
  | p :: rest => if p.1 = name then some p.2 else lookupParam name rest

/-- Modelled from the spec: the block-context parameter of a request.  The
tests pass it as `block_identifier` (get_block) or `block` (get_balance,
call_contract). -/
def blockParam (params : List (String × Val)) : Option Val :=
  (lookupParam "block_identifier" params).or (lookupParam "block" params)

/-- Modelled from the spec: the finality margin — "freshness_threshold
(finality margin, e.g. 12)" (Sec. 4.2); the tests pin it to 12 blocks. -/
def freshnessThreshold : Int := 12

/-- Modelled from the spec: methods whose results are immutable once they
exist (Sec. 4.2 rule 1); the tests name `get_transaction` and
`get_transaction_receipt`. -/
def immutableMethods : List String := ["get_transaction", "get_transaction_receipt"]

/-- Modelled from the spec: `_is_immutable(method, params, current_block)` —
true for intrinsically immutable methods, and for requests pinned to a
block more than the finality margin behind the current block (Sec. 4.2). -/
def CacheManager.is_immutable (_m : CacheManager α) (method : String)
    (params : List (String × Val)) (current_block : Option Int) : Bool :=
  if immutableMethods.contains method then
    true
  else
    match blockParam params, current_block with
    | some (.num b), some c => decide (freshnessThreshold < c - b)
    | _, _ => false

/-- Modelled from the spec: `determine_ttl(method, params, current_block)` —
`none` (permanent) for immutable data; `cache_ttl_latest` for head-relative
("latest") requests; `cache_ttl_blocks` for requests pinned to a recent
block; `cache_ttl_latest` as the fallback for anything unclassified
(Sec. 4.2 rules 1-4). -/
def CacheManager.determine_ttl (m : CacheManager α) (method : String)
    (params : List (String × Val)) (current_block : Option Int) : Option Nat :=
  if m.is_immutable method params current_block then
    none
  else if blockParam params == some (.str "latest") then
    some m.cache_ttl_latest
  else
    match blockParam params, current_block with
    | some (.num _), some _ => some m.cache_ttl_blocks
    | _, _ => some m.cache_ttl_latest

/-- Modelled from the spec: `get(key)` — absent or expired keys record a
miss (expired entries are lazily purged); a live entry records a hit and
returns the stored value (Sec. 4.2). -/
def CacheManager.get (m : CacheManager α) (now : Nat) (k : String) :
    Option α × CacheManager α :=
  match lookupEntry k m.cache with
  | none => (none, { m with misses := m.misses + 1 })
  | some e =>
    match e.expires_at with
    | none => (some e.value, { m with hits := m.hits + 1 })
    | some t =>
      if now < t then
        (some e.value, { m with hits := m.hits + 1 })
      else
        (none, { m with cache := eraseKey k m.cache, misses := m.misses + 1 })

/-- Modelled from the spec: the eviction victim — the key of the
time-bounded entry with the nearest expiration, the first such on a tie;
`none` when every entry is permanent (Sec. 4.2 `set`). -/
def bestTimed : List (String × CacheEntry α) → Option (String × Nat)
  | [] => none
  | p :: rest =>
    match p.2.expires_at with
    | none => bestTimed rest
    | some t =>
      match bestTimed rest with
      | none => some (p.1, t)
      | some q => if t ≤ q.2 then some (p.1, t) else some q

/-- Modelled from the spec: evict one entry — the time-bounded entry
nearest to expiry when one exists, otherwise one arbitrary (the
earliest-inserted) entry (Sec. 4.2 `set`). -/
def evictOne (l : List (String × CacheEntry α)) : List (String × CacheEntry α) :=
  match bestTimed l with
  | some q => eraseKey q.1 l
  | none => l.tail

/-- Modelled from the spec: `set(key, value, ttl)` — `ttl = none` stores
permanently, `ttl = some d` stores with `expires_at = now + d`; at capacity
an entry is evicted before inserting (Sec. 4.2). -/
def CacheManager.set (m : CacheManager α) (now : Nat) (k : String) (v : α)
    (ttl : Option Nat) : CacheManager α :=
  let c1 := if m.max_cache_size ≤ m.cache.length then evictOne m.cache else m.cache
  let e : CacheEntry α :=
    { value := v, expires_at := ttl.map (fun d => now + d), created_at := now }
  { m with cache := insertEntry k e c1 }

/-- C2: `determine_ttl("get_block", ("block_identifier" : b), c)` is the
permanent marker exactly when `c - b > 12`, and otherwise the configured
`cache_ttl_blocks` duration. -/
theorem determine_ttl_get_block (m : CacheManager α) (b c : Int) :
    m.determine_ttl "get_block" [("block_identifier", Val.num b)] (some c)
      = if 12 < c - b then none else some m.cache_ttl_blocks := by
  by_cases h : (12 : Int) < c - b <;>
    simp [CacheManager.determine_ttl, CacheManager.is_immutable, blockParam,
      lookupParam, immutableMethods, freshnessThreshold, h]

theorem lookupEntry_insert_self (k : String) (e : CacheEntry α)
    (l : List (String × CacheEntry α)) :
    lookupEntry k (insertEntry k e l) = some e := by
  induction l with
  | nil => simp [insertEntry, lookupEntry]
  | cons p rest ih =>
    by_cases h : p.1 = k
    · simp [insertEntry, h, lookupEntry]
    · simp [insertEntry, h, lookupEntry, ih]

theorem lookupEntry_eq_none_iff (k : String) (l : List (String × CacheEntry α)) :
    lookupEntry k l = none ↔ ∀ p ∈ l, p.1 ≠ k := by
  induction l with
  | nil => simp [lookupEntry]
  | cons p rest ih =>
    by_cases h : p.1 = k <;> simp [lookupEntry, h, ih]

theorem insertEntry_of_absent {k : String} {e : CacheEntry α}
    {l : List (String × CacheEntry α)} (h : ∀ p ∈ l, p.1 ≠ k) :
    insertEntry k e l = l ++ [(k, e)] := by
  induction l with
  | nil => simp [insertEntry]
  | cons p rest ih =>
    have hp : p.1 ≠ k := h p (List.mem_cons_self p rest)
    simp only [insertEntry, if_neg hp, List.cons_append, List.cons.injEq, true_and]
    exact ih (fun q hq => h q (List.mem_cons_of_mem p hq))

theorem mem_eraseKey {j : String} {p : String × CacheEntry α}
    {l : List (String × CacheEntry α)} (h : p ∈ eraseKey j l) : p ∈ l := by
  induction l with
  | nil => simp [eraseKey] at h
  | cons q rest ih =>
    by_cases hq : q.1 = j
    · simp only [eraseKey, if_pos hq] at h
      exact List.mem_cons_of_mem q h
    · simp only [eraseKey, if_neg hq, List.mem_cons] at h
      rcases h with h | h
      · exact h ▸ List.mem_cons_self q rest
      · exact List.mem_cons_of_mem q (ih h)

theorem eraseKey_length {j : String} {l : List (String × CacheEntry α)}
    (h : ∃ p ∈ l, p.1 = j) : (eraseKey j l).length + 1 = l.length := by
  induction l with
  | nil => simp at h
  | cons q rest ih =>
    by_cases hq : q.1 = j
    · simp [eraseKey, hq]
    · rcases h with ⟨p, hp, hpj⟩
      rcases List.mem_cons.mp hp with rfl | hp
      · exact absurd hpj hq
      · simp only [eraseKey, if_neg hq, List.length_cons]
        rw [← ih ⟨p, hp, hpj⟩]

theorem bestTimed_none_iff (l : List (String × CacheEntry α)) :
    bestTimed l = none ↔ ∀ p ∈ l, p.2.expires_at = none := by
  induction l with
  | nil => simp [bestTimed]
  | cons p rest ih =>
    constructor
    · intro h
      simp only [bestTimed] at h
      split at h
      · rename_i he
        intro q hq
        rcases List.mem_cons.mp hq with rfl | hq2
        · exact he
        · exact ih.mp h q hq2
      · split at h
        · simp at h
        · split at h <;> simp at h
    · intro hall
      have hp : p.2.expires_at = none := hall p (List.mem_cons_self p rest)
      have hr : bestTimed rest = none :=
        ih.mpr (fun q hq => hall q (List.mem_cons_of_mem p hq))
      simp [bestTimed, hp, hr]

theorem bestTimed_some_mem {l : List (String × CacheEntry α)} {j : String} {t : Nat}
    (h : bestTimed l = some (j, t)) : ∃ e, (j, e) ∈ l ∧ e.expires_at = some t := by
  induction l generalizing j t with
  | nil => simp [bestTimed] at h
  | cons p rest ih =>
    simp only [bestTimed] at h
    split at h
    · rcases ih h with ⟨e, hm, hx⟩
      exact ⟨e, List.mem_cons_of_mem p hm, hx⟩
    · rename_i w he
      split at h
      · rw [Option.some.injEq, Prod.mk.injEq] at h
        refine ⟨p.2, ?_, by rw [he, h.2]⟩
        rw [← h.1]
        exact List.mem_cons_self p rest
      · rename_i r hb
        split at h
        · rw [Option.some.injEq, Prod.mk.injEq] at h
          refine ⟨p.2, ?_, by rw [he, h.2]⟩
          rw [← h.1]
          exact List.mem_cons_self p rest
        · rcases ih (hb.trans h) with ⟨e, hm, hx⟩
          exact ⟨e, List.mem_cons_of_mem p hm, hx⟩

theorem bestTimed_some_min {l : List (String × CacheEntry α)} {j : String} {t : Nat}
    (h : bestTimed l = some (j, t)) :
    ∀ q ∈ l, ∀ u, q.2.expires_at = some u → t ≤ u := by
  induction l generalizing j t with
  | nil => simp [bestTimed] at h
  | cons p rest ih =>
    intro q hq u hu
    simp only [bestTimed] at h
    split at h
    · rename_i he
      rcases List.mem_cons.mp hq with rfl | hq2
      · rw [he] at hu; cases hu
      · exact ih h q hq2 u hu
    · rename_i w he
      split at h
      · rename_i hb
        rw [Option.some.injEq, Prod.mk.injEq] at h
        rcases List.mem_cons.mp hq with rfl | hq2
        · rw [he, Option.some.injEq] at hu
          omega
        · exact absurd ((bestTimed_none_iff rest).mp hb q hq2) (by simp [hu])
      · rename_i r hb
        split at h
        · rename_i hle
          rw [Option.some.injEq, Prod.mk.injEq] at h
          rcases List.mem_cons.mp hq with rfl | hq2
          · rw [he, Option.some.injEq] at hu
            omega
          · have hmin := ih (show bestTimed rest = some (r.1, r.2) from hb) q hq2 u hu
            omega
        · rename_i hle
          have hr : bestTimed rest = some (j, t) := hb.trans h
          rcases List.mem_cons.mp hq with rfl | hq2
          · rw [he, Option.some.injEq] at hu
            have h2 : r.2 = t := congrArg Prod.snd (Option.some.inj h)
            omega
          · exact ih hr q hq2 u hu

/-- Concrete string-valued cache used to instantiate the cache theorems on
executable inputs. -/
def sampleCache : CacheManager String :=
  { cache_ttl_blocks := 60, cache_ttl_latest := 5, max_cache_size := 3,
    cache := [], hits := 0, misses := 0 }

/-- C4: after `set k v (some d)` with positive `d`, `get k` returns `v` at
any time strictly before the TTL has elapsed, and returns `none` while
recording a miss strictly after it has elapsed; after `set k v none`
(permanent), `get k` returns `v` after an arbitrary delay, no intervening
operation having occurred. -/
theorem cache_set_get_semantics (m : CacheManager α) (now t' : Nat) (k : String)
    (v : α) (d : Nat) :
    (0 < d → t' < now + d → ((m.set now k v (some d)).get t' k).1 = some v) ∧
    (now + d < t' →
      ((m.set now k v (some d)).get t' k).1 = none ∧
      ((m.set now k v (some d)).get t' k).2.misses = m.misses + 1) ∧
    ((m.set now k v none).get t' k).1 = some v := by
  have h1 : lookupEntry k ((m.set now k v (some d)).cache)
      = some { value := v, expires_at := some (now + d), created_at := now } := by
    simp [CacheManager.set, lookupEntry_insert_self]
  have h2 : lookupEntry k ((m.set now k v none).cache)
      = some { value := v, expires_at := none, created_at := now } := by
    simp [CacheManager.set, lookupEntry_insert_self]
  refine ⟨fun _ hlt => ?_, fun hgt => ?_, ?_⟩
  · simp [CacheManager.get, h1, hlt]
  · have hnlt : ¬ t' < now + d := by omega
    constructor
    · simp [CacheManager.get, h1, hnlt]
    · have h3 : (m.set now k v (some d)).misses = m.misses := by
        simp [CacheManager.set]
      simp [CacheManager.get, h1, hnlt, h3]
  · simp [CacheManager.get, h2]

/-- Closed instantiation of `cache_set_get_semantics`: with a TTL of 10
seconds set at time 0, the value is returned at time 5, gone (with a miss
recorded) at time 20, and a permanent entry is still returned at time
1000. -/
theorem cache_set_get_semantics_witness :
    ((sampleCache.set 0 "k" "v" (some 10)).get 5 "k").1 = some "v" ∧
    (((sampleCache.set 0 "k" "v" (some 10)).get 20 "k").1 = none ∧
      ((sampleCache.set 0 "k" "v" (some 10)).get 20 "k").2.misses
        = sampleCache.misses + 1) ∧
    ((sampleCache.set 0 "k" "v" none).get 1000 "k").1 = some "v" :=
  ⟨(cache_set_get_semantics sampleCache 0 5 "k" "v" 10).1 (by decide) (by decide),
   (cache_set_get_semantics sampleCache 0 20 "k" "v" 10).2.1 (by decide),
   (cache_set_get_semantics sampleCache 0 1000 "k" "v" 10).2.2⟩

/-- C1: setting a new key into a cache at its size cap keeps the entry
count at the cap; before inserting it evicts the time-bounded entry with
the nearest future expiration when one exists, and exactly one (the
earliest-inserted) entry when every current entry is permanent. -/
theorem cache_eviction_at_capacity (m : CacheManager α) (now : Nat) (k : String)
    (v : α) (ttl : Option Nat)
    (hcap : m.cache.length = m.max_cache_size)
    (hpos : 0 < m.max_cache_size)
    (hnew : lookupEntry k m.cache = none) :
    ((m.set now k v ttl).cache.length = m.max_cache_size) ∧
    ((∃ p ∈ m.cache, p.2.expires_at ≠ none) →
      ∃ vk t, (∃ e, (vk, e) ∈ m.cache ∧ e.expires_at = some t) ∧
        (∀ q ∈ m.cache, ∀ u, q.2.expires_at = some u → t ≤ u) ∧
        (m.set now k v ttl).cache
          = eraseKey vk m.cache ++
              [(k, { value := v, expires_at := ttl.map (fun d => now + d),
                     created_at := now })]) ∧
    ((∀ p ∈ m.cache, p.2.expires_at = none) →
      (m.set now k v ttl).cache
        = m.cache.tail ++
            [(k, { value := v, expires_at := ttl.map (fun d => now + d),
                   created_at := now })]) := by
  have habs : ∀ p ∈ m.cache, p.1 ≠ k := (lookupEntry_eq_none_iff k m.cache).mp hnew
  have hle : m.max_cache_size ≤ m.cache.length := le_of_eq hcap.symm
  have hset : (m.set now k v ttl).cache
      = insertEntry k { value := v, expires_at := ttl.map (fun d => now + d),
                        created_at := now } (evictOne m.cache) := by
    simp [CacheManager.set, if_pos hle]
  have habs2 : ∀ p ∈ evictOne m.cache, p.1 ≠ k := by
    intro p hp
    unfold evictOne at hp
    rcases hb : bestTimed m.cache with _ | q
    · rw [hb] at hp
      exact habs p (List.mem_of_mem_tail hp)
    · rw [hb] at hp
      exact habs p (mem_eraseKey hp)
  have hins : (m.set now k v ttl).cache
      = evictOne m.cache ++
          [(k, { value := v, expires_at := ttl.map (fun d => now + d),
                 created_at := now })] := by
    rw [hset, insertEntry_of_absent habs2]
  rcases hb : bestTimed m.cache with _ | ⟨vk, t⟩
  · have hall : ∀ p ∈ m.cache, p.2.expires_at = none := (bestTimed_none_iff m.cache).mp hb
    have hev : evictOne m.cache = m.cache.tail := by
      unfold evictOne
      rw [hb]
    refine ⟨?_, ?_, ?_⟩
    · rw [hins, hev, List.length_append, List.length_tail]
      simp only [List.length_singleton]
      omega
    · rintro ⟨p, hp, hpx⟩
      exact absurd (hall p hp) hpx
    · intro _
      rw [hins, hev]
  · have hev : evictOne m.cache = eraseKey vk m.cache := by
      unfold evictOne
      rw [hb]
    rcases bestTimed_some_mem hb with ⟨e, hmem, hexp⟩
    have hlen : (eraseKey vk m.cache).length + 1 = m.cache.length :=
      eraseKey_length ⟨(vk, e), hmem, rfl⟩
    refine ⟨?_, ?_, ?_⟩
    · rw [hins, hev, List.length_append]
      simp only [List.length_singleton]
      omega
    · intro _
      exact ⟨vk, t, ⟨e, hmem, hexp⟩, bestTimed_some_min hb, by rw [hins, hev]⟩
    · intro hall
      exact absurd (hall (vk, e) hmem) (by simp [hexp])

/-- Concrete cache at its cap of 3 with TTLs 10/20/30, from the eviction scenario of
the spec. -/
def fullCache : CacheManager String :=
  { cache_ttl_blocks := 60, cache_ttl_latest := 5, max_cache_size := 3,
    cache := [
      ("key1", { value := "value1", expires_at := some 10, created_at := 0 }),
      ("key2", { value := "value2", expires_at := some 20, created_at := 0 }),
      ("key3", { value := "value3", expires_at := some 30, created_at := 0 })],
    hits := 0, misses := 0 }

/-- Closed instantiation of `cache_eviction_at_capacity` on the eviction scenario of
the spec: a cache at cap 3 stays at 3 entries after inserting a fourth
key. -/
theorem cache_eviction_at_capacity_witness :
    fullCache.cache.length = fullCache.max_cache_size ∧
    0 < fullCache.max_cache_size ∧
    (fullCache.set 0 "key4" "value4" (some 40)).cache.length
      = fullCache.max_cache_size :=
  ⟨rfl, by decide,
    (cache_eviction_at_capacity fullCache 0 "key4" "value4" (some 40)
      rfl (by decide) rfl).1⟩

/-- Modelled from the spec: one configured endpoint with its health and
statistics (Sec. 3, Provider).  Latency seconds are modelled as rationals,
timestamps as natural numbers. -/
structure Provider where
  name : String
  url : String
  priority : Nat
  is_healthy : Bool
  failure_count : Nat
  success_count : Nat
  request_count : Nat
  total_latency : Rat
  last_failure_time : Option Nat
deriving Repr, DecidableEq

/-- Modelled from the spec: a provider as freshly created from
configuration — healthy, with all counters at zero (Sec. 3). -/
def Provider.init (name url : String) (priority : Nat) : Provider :=
  { name := name, url := url, priority := priority, is_healthy := true,
    failure_count := 0, success_count := 0, request_count := 0,
    total_latency := 0, last_failure_time := none }

/-- Modelled from the spec: one entry of the `providers` configuration
list — name, url, and an optional priority (Sec. 6). -/
structure ProviderConfig where
  name : String
  url : String
  priority : Option Nat
deriving Repr, DecidableEq

/-- Modelled from the spec: the priority used when a configuration entry
leaves `priority` unspecified ("default equal-priority if unspecified",
Sec. 3); the concrete value is not observable in any claim. -/
def defaultPriority : Nat := 99

/-- Modelled from the spec: the provider pool manager — the mapping from
provider name to provider (an insertion-ordered association list, a Python
dict), the failover threshold, the health-check cooldown, and a rotation
counter for round-robin among equal-priority healthy providers
(Sec. 4.1). -/
structure ProviderManager where
  providers : List (String × Provider)
  failover_threshold : Nat
  health_check_cooldown : Nat
  rr_index : Nat
deriving Repr

/-- Association-list lookup by provider name, mirroring a Python dict
read. -/
def lookupProvider (k : String) : List (String × Provider) → Option Provider
  | [] => none
  | p :: rest => if p.1 = k then some p.2 else lookupProvider k rest

/-- Modelled from the spec: `ProviderManager(providers, failover_threshold,
health_check_cooldown)` — a `ValueError` ("At least one provider must be
configured") on an empty provider list; otherwise one `Provider` per
configuration entry, keyed by name (Sec. 4.1). -/
def mkProviderManager (configs : List ProviderConfig)
    (failover_threshold health_check_cooldown : Nat) :
    Except String ProviderManager :=
  if configs.isEmpty then
    Except.error "At least one provider must be configured"
  else
    Except.ok
      { providers := configs.map (fun c =>
          (c.name, Provider.init c.name c.url (c.priority.getD defaultPriority))),
        failover_threshold := failover_threshold,
        health_check_cooldown := health_check_cooldown,
        rr_index := 0 }

/-- Modelled from the spec: the effect of `mark_success` on the named
provider — bump success and request counters, accumulate latency, reset
the consecutive failure count, restore health (Sec. 4.1). -/
def Provider.recordSuccess (p : Provider) (latency : Rat) : Provider :=
  { p with success_count := p.success_count + 1,
           request_count := p.request_count + 1,
           total_latency := p.total_latency + latency,
           failure_count := 0,
           is_healthy := true }

/-- Modelled from the spec: the effect of `mark_failure` on the named
provider — bump failure and request counters; when the consecutive failure
count reaches the failover threshold, mark unhealthy and stamp the failure
time (Sec. 4.1). -/
def Provider.recordFailure (p : Provider) (threshold now : Nat) : Provider :=
  if threshold ≤ p.failure_count + 1 then
    { p with failure_count := p.failure_count + 1,
             request_count := p.request_count + 1,
             is_healthy := false,
             last_failure_time := some now }
  else
    { p with failure_count := p.failure_count + 1,
             request_count := p.request_count + 1 }

/-- Update of the provider stored under a name; an unrecognized name leaves
the pool unchanged (the code only logs a warning). -/
def updateNamed (name : String) (f : Provider → Provider)
    (l : List (String × Provider)) : List (String × Provider) :=
  l.map (fun q => if q.1 = name then (q.1, f q.2) else q)

/-- Modelled from the spec: `mark_success(name, latency)` (Sec. 4.1). -/
def ProviderManager.mark_success (pm : ProviderManager) (name : String)
    (latency : Rat) : ProviderManager :=
  { pm with providers := updateNamed name (fun p => p.recordSuccess latency) pm.providers }

/-- Modelled from the spec: `mark_failure(name, error)`; the failure time
stamped is the explicit `now` (Sec. 4.1). -/
def ProviderManager.mark_failure (pm : ProviderManager) (name : String)
    (now : Nat) : ProviderManager :=
  { pm with providers :=
      updateNamed name (fun p => p.recordFailure pm.failover_threshold now) pm.providers }

/-- Modelled from the spec: cooldown recovery of one provider — an
unhealthy provider whose last failure is older than the cooldown becomes
healthy with its failure count reset; anything else is untouched
(Sec. 4.1, recovery sweep). -/
def Provider.maybeRecover (p : Provider) (cooldown now : Nat) : Provider :=
  if p.is_healthy then p
  else
    match p.last_failure_time with
    | some t =>
      if cooldown < now - t then
        { p with is_healthy := true, failure_count := 0 }
      else p
    | none => p

/-- Modelled from the spec: `_recover_failed_providers` — the recovery
sweep over the whole pool (Sec. 4.1). -/
def ProviderManager.recover_failed_providers (pm : ProviderManager)
    (now : Nat) : ProviderManager :=
  { pm with providers :=
      pm.providers.map (fun q => (q.1, q.2.maybeRecover pm.health_check_cooldown now)) }

/-- Modelled from the spec: forced recovery — the health flag of every provider
reset to healthy and its failure counter cleared (Sec. 4.1). -/
def ProviderManager.forceRecover (pm : ProviderManager) : ProviderManager :=
  { pm with providers :=
      pm.providers.map (fun q => (q.1, { q.2 with is_healthy := true, failure_count := 0 })) }

/-- Modelled from the spec: selection from a candidate pool — the lowest
priority wins, rotating round-robin among the healthy providers that share
that lowest priority (Sec. 4.1). -/
def selectFrom (pm : ProviderManager) (pool : List (String × Provider)) :
    Option Provider × ProviderManager :=
  match pool with
  | [] => (none, pm)
  | p :: rest =>
    let minPri := rest.foldl (fun acc q => min acc q.2.priority) p.2.priority
    match (p :: rest).filter (fun q => decide (q.2.priority = minPri)) with
    | [] => (some p.2, { pm with rr_index := pm.rr_index + 1 })
    | c :: cs =>
      let chosen := (c :: cs).get
        ⟨pm.rr_index % (c :: cs).length, Nat.mod_lt _ (Nat.succ_pos cs.length)⟩
      (some chosen.2, { pm with rr_index := pm.rr_index + 1 })

/-- Modelled from the spec: `get_provider` — run the recovery sweep, then
select among the healthy providers; when none is healthy, force-recover
every provider first so that selection always has candidates (Sec. 4.1). -/
def ProviderManager.get_provider (pm : ProviderManager) (now : Nat) :
    Option Provider × ProviderManager :=
  let pm1 := pm.recover_failed_providers now
  let healthy := pm1.providers.filter (fun q => q.2.is_healthy)
  if healthy.isEmpty then
    selectFrom pm1.forceRecover pm1.forceRecover.providers
  else
    selectFrom pm1 healthy

/-- Healthy providers as seen by selection, after the recovery sweep. -/
def ProviderManager.healthyAfterSweep (pm : ProviderManager) (now : Nat) :
    List (String × Provider) :=
  (pm.recover_failed_providers now).providers.filter (fun q => q.2.is_healthy)

theorem lookup_updateNamed (name : String) (f : Provider → Provider)
    (l : List (String × Provider)) :
    lookupProvider name (updateNamed name f l) = (lookupProvider name l).map f := by
  induction l with
  | nil => rfl
  | cons q rest ih =>
    simp only [updateNamed, List.map_cons] at *
    by_cases h : q.1 = name
    · simp [lookupProvider, h]
    · simp only [lookupProvider, if_neg h]
      exact ih

/-- Repeated `mark_failure` on one provider name with no intervening
success. -/
def iterMarkFailure (pm : ProviderManager) (name : String) (now : Nat) :
    Nat → ProviderManager
  | 0 => pm
  | n + 1 => (iterMarkFailure pm name now n).mark_failure name now

/-- Repeated `recordFailure` on one provider. -/
def iterRecordFailure (p : Provider) (threshold now : Nat) : Nat → Provider
  | 0 => p
  | n + 1 => (iterRecordFailure p threshold now n).recordFailure threshold now

theorem iterMarkFailure_threshold (pm : ProviderManager) (name : String)
    (now n : Nat) :
    (iterMarkFailure pm name now n).failover_threshold = pm.failover_threshold := by
  induction n with
  | zero => rfl
  | succ n ih => simp [iterMarkFailure, ProviderManager.mark_failure, ih]

theorem lookup_iterMarkFailure (pm : ProviderManager) (name : String)
    (now n : Nat) :
    lookupProvider name (iterMarkFailure pm name now n).providers
      = (lookupProvider name pm.providers).map
          (fun p => iterRecordFailure p pm.failover_threshold now n) := by
  induction n with
  | zero =>
    cases h : lookupProvider name pm.providers <;>
      simp [iterMarkFailure, iterRecordFailure, h]
  | succ n ih =>
    simp only [iterMarkFailure, ProviderManager.mark_failure]
    rw [lookup_updateNamed, iterMarkFailure_threshold, ih]
    cases h : lookupProvider name pm.providers <;> simp [iterRecordFailure]

theorem iterRecordFailure_state (p : Provider) (threshold now : Nat)
    (hfc : p.failure_count = 0) (hh : p.is_healthy = true) (hthr : 0 < threshold)
    (n : Nat) :
    (iterRecordFailure p threshold now n).failure_count = n ∧
    (iterRecordFailure p threshold now n).is_healthy = decide (n < threshold) := by
  induction n with
  | zero =>
    refine ⟨hfc, ?_⟩
    rw [iterRecordFailure, hh]
    simp [hthr]
  | succ n ih =>
    rcases ih with ⟨ih1, ih2⟩
    simp only [iterRecordFailure, Provider.recordFailure, ih1]
    by_cases h : threshold ≤ n + 1
    · simp only [if_pos h]
      refine ⟨trivial, ?_⟩
      have hn : ¬ (n + 1 < threshold) := by omega
      simp [hn]
    · simp only [if_neg h]
      refine ⟨trivial, ?_⟩
      rw [ih2]
      simp only [decide_eq_decide]
      omega

/-- C5: starting from a healthy provider with no consecutive failures,
`mark_failure` applied fewer than `failover_threshold` times leaves it
healthy (with the consecutive count equal to the number of failures);
applied exactly `failover_threshold` times it makes `is_healthy` false;
and any `mark_success` resets `failure_count` to 0 and restores
`is_healthy`. -/
theorem failover_and_success_reset (pm : ProviderManager) (name : String)
    (now : Nat) (p : Provider)
    (hp : lookupProvider name pm.providers = some p)
    (hfc : p.failure_count = 0) (hh : p.is_healthy = true)
    (hthr : 0 < pm.failover_threshold) :
    (∀ n, n < pm.failover_threshold →
      ∃ q, lookupProvider name (iterMarkFailure pm name now n).providers = some q ∧
        q.is_healthy = true ∧ q.failure_count = n) ∧
    (∃ q, lookupProvider name
        (iterMarkFailure pm name now pm.failover_threshold).providers = some q ∧
      q.is_healthy = false) ∧
    (∀ (pm2 : ProviderManager) (lat : Rat) (r : Provider),
      lookupProvider name pm2.providers = some r →
      ∃ q, lookupProvider name (pm2.mark_success name lat).providers = some q ∧
        q.failure_count = 0 ∧ q.is_healthy = true) := by
  refine ⟨?_, ?_, ?_⟩
  · intro n hn
    refine ⟨iterRecordFailure p pm.failover_threshold now n, ?_, ?_, ?_⟩
    · rw [lookup_iterMarkFailure, hp]
      rfl
    · rw [(iterRecordFailure_state p pm.failover_threshold now hfc hh hthr n).2]
      simp [hn]
    · exact (iterRecordFailure_state p pm.failover_threshold now hfc hh hthr n).1
  · refine ⟨iterRecordFailure p pm.failover_threshold now pm.failover_threshold,
      ?_, ?_⟩
    · rw [lookup_iterMarkFailure, hp]
      rfl
    · rw [(iterRecordFailure_state p pm.failover_threshold now hfc hh hthr
        pm.failover_threshold).2]
      simp
  · intro pm2 lat r hr
    refine ⟨r.recordSuccess lat, ?_, rfl, rfl⟩
    simp only [ProviderManager.mark_success]
    rw [lookup_updateNamed, hr]
    rfl

/-- Concrete three-provider pool with a failover threshold of 2, as in the
test fixtures. -/
def pmSample : ProviderManager :=
  { providers := [
      ("provider1", Provider.init "provider1" "https://rpc1.example.com" 1),
      ("provider2", Provider.init "provider2" "https://rpc2.example.com" 2),
      ("provider3", Provider.init "provider3" "https://rpc3.example.com" 3)],
    failover_threshold := 2, health_check_cooldown := 1, rr_index := 0 }

/-- Closed instantiation of `failover_and_success_reset` on the test
fixture pool (threshold 2): one failure leaves provider1 healthy at count
1, two failures make it unhealthy, and a success after a failure resets
the count and restores health. -/
theorem failover_and_success_reset_witness :
    (∃ q, lookupProvider "provider1"
        (iterMarkFailure pmSample "provider1" 5 1).providers = some q ∧
      q.is_healthy = true ∧ q.failure_count = 1) ∧
    (∃ q, lookupProvider "provider1"
        (iterMarkFailure pmSample "provider1" 5 2).providers = some q ∧
      q.is_healthy = false) ∧
    (∃ q, lookupProvider "provider1"
        ((iterMarkFailure pmSample "provider1" 5 1).mark_success "provider1"
          (1 / 2)).providers = some q ∧
      q.failure_count = 0 ∧ q.is_healthy = true) := by
  have h := failover_and_success_reset pmSample "provider1" 5
    (Provider.init "provider1" "https://rpc1.example.com" 1) rfl rfl rfl (by decide)
  refine ⟨h.1 1 (by decide), h.2.1, ?_⟩
  exact h.2.2 (iterMarkFailure pmSample "provider1" 5 1) (1 / 2)
    (iterRecordFailure (Provider.init "provider1" "https://rpc1.example.com" 1)
      pmSample.failover_threshold 5 1)
    (by rw [lookup_iterMarkFailure]; rfl)

theorem foldl_min_le (l : List Nat) (a : Nat) :
    l.foldl min a ≤ a ∧ ∀ x ∈ l, l.foldl min a ≤ x := by
  induction l generalizing a with
  | nil => simp
  | cons b rest ih =>
    simp only [List.foldl_cons]
    rcases ih (min a b) with ⟨h1, h2⟩
    refine ⟨le_trans h1 (min_le_left a b), ?_⟩
    intro x hx
    rcases List.mem_cons.mp hx with rfl | hx2
    · exact le_trans h1 (min_le_right a x)
    · exact h2 x hx2

theorem foldl_min_attained (l : List Nat) (a : Nat) :
    l.foldl min a = a ∨ l.foldl min a ∈ l := by
  induction l generalizing a with
  | nil => simp
  | cons b rest ih =>
    simp only [List.foldl_cons]
    rcases ih (min a b) with h | h
    · rcases le_total a b with hab | hab
      · left
        rw [h, min_eq_left hab]
      · right
        rw [h, min_eq_right hab]
        exact List.mem_cons_self b rest
    · right
      exact List.mem_cons_of_mem b h

theorem minPri_spec (p : String × Provider) (rest : List (String × Provider)) :
    (∃ q ∈ p :: rest,
      q.2.priority = rest.foldl (fun acc q => min acc q.2.priority) p.2.priority) ∧
    (∀ q ∈ p :: rest,
      rest.foldl (fun acc q => min acc q.2.priority) p.2.priority ≤ q.2.priority) := by
  have hmap : rest.foldl (fun acc q => min acc q.2.priority) p.2.priority
      = (rest.map (fun q => q.2.priority)).foldl min p.2.priority :=
    (List.foldl_map _ _ _ _).symm
  constructor
  · rcases foldl_min_attained (rest.map (fun q => q.2.priority)) p.2.priority with h | h
    · exact ⟨p, List.mem_cons_self p rest, by rw [hmap, h]⟩
    · rw [List.mem_map] at h
      rcases h with ⟨q, hq, hqe⟩
      exact ⟨q, List.mem_cons_of_mem p hq, by rw [hmap, ← hqe]⟩
  · intro q hq
    rcases List.mem_cons.mp hq with rfl | hq2
    · rw [hmap]
      exact (foldl_min_le _ _).1
    · rw [hmap]
      exact (foldl_min_le _ _).2 _ (List.mem_map_of_mem _ hq2)

theorem selectFrom_providers (pm : ProviderManager)
    (pool : List (String × Provider)) :
    (selectFrom pm pool).2.providers = pm.providers := by
  cases pool with
  | nil => rfl
  | cons p rest =>
    simp only [selectFrom]
    split <;> rfl

theorem selectFrom_spec (pm : ProviderManager) (pool : List (String × Provider))
    (hne : pool ≠ []) :
    ∃ c ∈ pool, (selectFrom pm pool).1 = some c.2 ∧
      ∀ q ∈ pool, c.2.priority ≤ q.2.priority := by
  cases pool with
  | nil => exact absurd rfl hne
  | cons p rest =>
    rcases minPri_spec p rest with ⟨⟨w, hw, hwpri⟩, hmin⟩
    simp only [selectFrom]
    split
    · rename_i hfil
      exfalso
      have : w ∈ (p :: rest).filter
          (fun q => decide (q.2.priority
            = rest.foldl (fun acc q => min acc q.2.priority) p.2.priority)) := by
        rw [List.mem_filter]
        exact ⟨hw, by simp [hwpri]⟩
      rw [hfil] at this
      simp at this
    · rename_i c cs hfil
      have hprop : ∀ x, x ∈ c :: cs → x ∈ p :: rest ∧
          x.2.priority = rest.foldl (fun acc q => min acc q.2.priority) p.2.priority := by
        intro x hx
        have hx2 : x ∈ (p :: rest).filter
            (fun q => decide (q.2.priority
              = rest.foldl (fun acc q => min acc q.2.priority) p.2.priority)) := by
          rw [hfil]
          exact hx
        rcases List.mem_filter.mp hx2 with ⟨h1, h2⟩
        exact ⟨h1, by simpa using h2⟩
      have hgm := hprop _ (List.get_mem (c :: cs)
        (pm.rr_index % (c :: cs).length) (Nat.mod_lt _ (Nat.succ_pos cs.length)))
      refine ⟨_, hgm.1, rfl, ?_⟩
      intro q hq
      rw [hgm.2]
      exact hmin q hq

/-- C6: given a non-empty pool, `get_provider` always returns a provider;
and when no provider is healthy after the recovery sweep, a forced
recovery first resets every provider to healthy with its failure counter
cleared, so the returned pool state is fully healthy. -/
theorem get_provider_total (pm : ProviderManager) (now : Nat)
    (h : pm.providers ≠ []) :
    (∃ p, (pm.get_provider now).1 = some p) ∧
    ((∀ q ∈ (pm.recover_failed_providers now).providers, q.2.is_healthy = false) →
      ∀ q ∈ (pm.get_provider now).2.providers,
        q.2.is_healthy = true ∧ q.2.failure_count = 0) := by
  have hpm1 : (pm.recover_failed_providers now).providers ≠ [] := by
    simp only [ProviderManager.recover_failed_providers]
    simpa using h
  by_cases hE : ((pm.recover_failed_providers now).providers.filter
      (fun q => q.2.is_healthy)).isEmpty
  · have hget : pm.get_provider now
        = selectFrom (pm.recover_failed_providers now).forceRecover
            (pm.recover_failed_providers now).forceRecover.providers := by
      simp only [ProviderManager.get_provider]
      rw [if_pos hE]
    have hFne : (pm.recover_failed_providers now).forceRecover.providers ≠ [] := by
      simp only [ProviderManager.forceRecover]
      simpa using hpm1
    constructor
    · rcases selectFrom_spec _ _ hFne with ⟨c, _, hc, _⟩
      exact ⟨c.2, by rw [hget, hc]⟩
    · intro _ q hq
      rw [hget, selectFrom_providers] at hq
      simp only [ProviderManager.forceRecover, List.mem_map] at hq
      rcases hq with ⟨r, _, rfl⟩
      exact ⟨rfl, rfl⟩
  · have hget : pm.get_provider now
        = selectFrom (pm.recover_failed_providers now)
            ((pm.recover_failed_providers now).providers.filter
              (fun q => q.2.is_healthy)) := by
      simp only [ProviderManager.get_provider]
      rw [if_neg hE]
    have hHne : (pm.recover_failed_providers now).providers.filter
        (fun q => q.2.is_healthy) ≠ [] := by
      intro hnil
      exact hE (by rw [hnil]; rfl)
    constructor
    · rcases selectFrom_spec _ _ hHne with ⟨c, _, hc, _⟩
      exact ⟨c.2, by rw [hget, hc]⟩
    · intro hall
      exfalso
      apply hHne
      rw [List.filter_eq_nil_iff]
      intro q hq
      simp [hall q hq]

/-- Concrete three-provider pool in which every provider is unhealthy and
still inside the cooldown window at time 100. -/
def pmAllDown : ProviderManager :=
  { providers := [
      ("provider1", { Provider.init "provider1" "https://rpc1.example.com" 1 with
                      is_healthy := false, failure_count := 1,
                      last_failure_time := some 100 }),
      ("provider2", { Provider.init "provider2" "https://rpc2.example.com" 2 with
                      is_healthy := false, failure_count := 1,
                      last_failure_time := some 100 }),
      ("provider3", { Provider.init "provider3" "https://rpc3.example.com" 3 with
                      is_healthy := false, failure_count := 1,
                      last_failure_time := some 100 })],
    failover_threshold := 1, health_check_cooldown := 300, rr_index := 0 }

/-- Closed instantiation of `get_provider_total`: with every provider
unhealthy and inside the cooldown window, one `get_provider` call still
returns a provider. -/
theorem get_provider_total_witness :
    ∃ p, (pmAllDown.get_provider 100).1 = some p :=
  (get_provider_total pmAllDown 100 (by decide)).1

/-- C7: among the providers healthy after the recovery sweep,
`get_provider` returns one with the lowest priority value. -/
theorem get_provider_lowest_priority (pm : ProviderManager) (now : Nat)
    (hne : pm.healthyAfterSweep now ≠ []) :
    ∃ c ∈ pm.healthyAfterSweep now,
      (pm.get_provider now).1 = some c.2 ∧
      ∀ q ∈ pm.healthyAfterSweep now, c.2.priority ≤ q.2.priority := by
  have hE : ¬ ((pm.recover_failed_providers now).providers.filter
      (fun q => q.2.is_healthy)).isEmpty := by
    rw [List.isEmpty_iff]
    exact hne
  have hget : pm.get_provider now
      = selectFrom (pm.recover_failed_providers now) (pm.healthyAfterSweep now) := by
    simp only [ProviderManager.get_provider]
    rw [if_neg hE]
    rfl
  rcases selectFrom_spec (pm.recover_failed_providers now)
    (pm.healthyAfterSweep now) hne with ⟨c, hc, hsel, hmin⟩
  exact ⟨c, hc, by rw [hget, hsel], hmin⟩

/-- Concrete pool matching the scenario of the claim: priorities 1/2/3, the
priority-1 provider unhealthy (threshold 1) and still inside the cooldown
window at time 100. -/
def pmScenario : ProviderManager :=
  { providers := [
      ("provider1", { Provider.init "provider1" "https://rpc1.example.com" 1 with
                      is_healthy := false, failure_count := 1,
                      last_failure_time := some 100 }),
      ("provider2", Provider.init "provider2" "https://rpc2.example.com" 2),
      ("provider3", Provider.init "provider3" "https://rpc3.example.com" 3)],
    failover_threshold := 1, health_check_cooldown := 300, rr_index := 0 }

/-- Closed instantiation of `get_provider_lowest_priority` on the scenario
pool of the claim: the selected provider has the lowest priority among the
healthy ones (the priority-2 provider, priority 1 being unhealthy). -/
theorem get_provider_lowest_priority_witness :
    ∃ c ∈ pmScenario.healthyAfterSweep 100,
      (pmScenario.get_provider 100).1 = some c.2 ∧
      ∀ q ∈ pmScenario.healthyAfterSweep 100, c.2.priority ≤ q.2.priority :=
  get_provider_lowest_priority pmScenario 100 (by decide)

theorem lookup_map_maybeRecover (cooldown now : Nat) (name : String)
    (l : List (String × Provider)) :
    lookupProvider name (l.map (fun q => (q.1, q.2.maybeRecover cooldown now)))
      = (lookupProvider name l).map (fun p => p.maybeRecover cooldown now) := by
  induction l with
  | nil => rfl
  | cons q rest ih =>
    by_cases h : q.1 = name
    · simp [lookupProvider, h]
    · simp only [List.map_cons, lookupProvider, if_neg h]
      exact ih

/-- C8: a recovery sweep resets `is_healthy` and `failure_count` for every
unhealthy provider whose last failure is older than
`health_check_cooldown` seconds, and leaves a provider still within the
cooldown window untouched (hence unhealthy). -/
theorem recovery_sweep_semantics (pm : ProviderManager) (now : Nat)
    (name : String) (p : Provider) (t : Nat)
    (hp : lookupProvider name pm.providers = some p)
    (hh : p.is_healthy = false)
    (ht : p.last_failure_time = some t) :
    (pm.health_check_cooldown < now - t →
      ∃ q, lookupProvider name (pm.recover_failed_providers now).providers
          = some q ∧
        q.is_healthy = true ∧ q.failure_count = 0) ∧
    (now - t ≤ pm.health_check_cooldown →
      lookupProvider name (pm.recover_failed_providers now).providers = some p) := by
  have hl : lookupProvider name (pm.recover_failed_providers now).providers
      = some (p.maybeRecover pm.health_check_cooldown now) := by
    simp only [ProviderManager.recover_failed_providers]
    rw [lookup_map_maybeRecover, hp]
    rfl
  constructor
  · intro hc
    refine ⟨p.maybeRecover pm.health_check_cooldown now, hl, ?_⟩
    simp [Provider.maybeRecover, hh, ht, if_pos hc]
  · intro hc
    rw [hl]
    have : p.maybeRecover pm.health_check_cooldown now = p := by
      simp [Provider.maybeRecover, hh, ht, Nat.not_lt.mpr hc]
    rw [this]

/-- Concrete unhealthy provider pool: provider1 failed at time 100 with a
cooldown of 1 second. -/
def pmDown1 : ProviderManager :=
  { providers := [
      ("provider1", { Provider.init "provider1" "https://rpc1.example.com" 1 with
                      is_healthy := false, failure_count := 1,
                      last_failure_time := some 100 }),
      ("provider2", Provider.init "provider2" "https://rpc2.example.com" 2)],
    failover_threshold := 1, health_check_cooldown := 1, rr_index := 0 }

/-- Closed instantiation of `recovery_sweep_semantics`: a sweep at time 102
(past the 1-second cooldown) restores provider1; a sweep at time 101 (not
yet strictly past it) leaves it untouched. -/
theorem recovery_sweep_semantics_witness :
    (∃ q, lookupProvider "provider1" (pmDown1.recover_failed_providers 102).providers
        = some q ∧ q.is_healthy = true ∧ q.failure_count = 0) ∧
    lookupProvider "provider1" (pmDown1.recover_failed_providers 101).providers
      = some { Provider.init "provider1" "https://rpc1.example.com" 1 with
               is_healthy := false, failure_count := 1,
               last_failure_time := some 100 } :=
  ⟨(recovery_sweep_semantics pmDown1 102 "provider1" _ 100 rfl rfl rfl).1 (by decide),
   (recovery_sweep_semantics pmDown1 101 "provider1" _ 100 rfl rfl rfl).2 (by decide)⟩

theorem lookup_map_init (configs : List ProviderConfig)
    (hnd : (configs.map (fun c => c.name)).Nodup)
    (c : ProviderConfig) (hc : c ∈ configs) :
    lookupProvider c.name (configs.map (fun c =>
        (c.name, Provider.init c.name c.url (c.priority.getD defaultPriority))))
      = some (Provider.init c.name c.url (c.priority.getD defaultPriority)) := by
  induction configs with
  | nil => simp at hc
  | cons c0 rest ih =>
    simp only [List.map_cons, List.nodup_cons] at hnd
    rcases List.mem_cons.mp hc with rfl | hc2
    · simp [lookupProvider]
    · have hne : c0.name ≠ c.name := by
        intro he
        exact hnd.1 (he ▸ List.mem_map_of_mem (fun c => c.name) hc2)
      simp only [List.map_cons, lookupProvider, if_neg hne]
      exact ih hnd.2 hc2

/-- C9: constructing the pool from an empty provider list fails with the
configuration error "At least one provider must be configured"; from a
non-empty list it succeeds with exactly one Provider per configuration
entry, keyed by name (looked up by name when the names are distinct, as a
dict requires). -/
theorem construct_provider_manager (configs : List ProviderConfig)
    (th cd : Nat) :
    (configs = [] →
      mkProviderManager configs th cd
        = Except.error "At least one provider must be configured") ∧
    (configs ≠ [] →
      ∃ pm, mkProviderManager configs th cd = Except.ok pm ∧
        pm.providers.length = configs.length ∧
        ((configs.map (fun c => c.name)).Nodup → ∀ c ∈ configs,
          lookupProvider c.name pm.providers
            = some (Provider.init c.name c.url
                (c.priority.getD defaultPriority)))) := by
  constructor
  · rintro rfl
    rfl
  · intro hne
    have hE : ¬ (configs.isEmpty = true) := by
      cases configs with
      | nil => exact absurd rfl hne
      | cons a l => simp
    refine
      ⟨{ providers := configs.map (fun c =>
             (c.name, Provider.init c.name c.url (c.priority.getD defaultPriority))),
         failover_threshold := th, health_check_cooldown := cd, rr_index := 0 },
       ?_, ?_, ?_⟩
    · simp only [mkProviderManager]
      rw [if_neg hE]
    · simp [List.length_map]
    · intro hnd c hc
      exact lookup_map_init configs hnd c hc

/-- Concrete provider configurations matching the test fixtures. -/
def sampleConfigs : List ProviderConfig :=
  [{ name := "provider1", url := "https://rpc1.example.com", priority := some 1 },
   { name := "provider2", url := "https://rpc2.example.com", priority := some 2 },
   { name := "provider3", url := "https://rpc3.example.com", priority := some 3 }]

/-- Closed instantiation of `construct_provider_manager`: the empty list is
rejected with the configuration error, and the three-entry fixture list
yields a pool of three providers keyed by name. -/
theorem construct_provider_manager_witness :
    mkProviderManager [] 3 300
      = Except.error "At least one provider must be configured" ∧
    (∃ pm, mkProviderManager sampleConfigs 3 300 = Except.ok pm ∧
      pm.providers.length = sampleConfigs.length ∧
      ((sampleConfigs.map (fun c => c.name)).Nodup → ∀ c ∈ sampleConfigs,
        lookupProvider c.name pm.providers
          = some (Provider.init c.name c.url
              (c.priority.getD defaultPriority)))) :=
  ⟨(construct_provider_manager [] 3 300).1 rfl,
   (construct_provider_manager sampleConfigs 3 300).2 (by decide)⟩

/-- Modelled from the tests: the exception types exported by the exceptions
module of the library (exceptions.py is absent from src/; test_exceptions.py
lists them). -/
inductive ExcType where
  | chainReaderError
  | providerError
  | allProvidersFailedError
  | rateLimitError
  | cacheError
  | invalidAddressError
  | invalidBlockError
  | contractCallError
deriving DecidableEq, Repr

/-- Modelled from the spec: the direct superclass of each exception type —
every error derives from the single base `ChainReaderError`, and
`RateLimitError` specialises `ProviderError` (Sec. 7 taxonomy;
test_exception_inheritance). -/
def parentOf : ExcType → Option ExcType
  | .chainReaderError => none
  | .providerError => some .chainReaderError
  | .allProvidersFailedError => some .chainReaderError
  | .rateLimitError => some .providerError
  | .cacheError => some .chainReaderError
  | .invalidAddressError => some .chainReaderError
  | .invalidBlockError => some .chainReaderError
  | .contractCallError => some .chainReaderError

/-- Reflexive-transitive subclass test along the `parentOf` chain, with
fuel bounding the (at most two-deep) hierarchy. -/
def isSubclassAux : Nat → ExcType → ExcType → Bool
  | 0, _, _ => false
  | n + 1, a, b =>
    a == b ||
      match parentOf a with
      | some p => isSubclassAux n p b
      | none => false

/-- The model of the Python subclass test on the exception types of the library. -/
def isSubclass (a b : ExcType) : Bool :=
  isSubclassAux 8 a b

/-- Modelled from the tests: `RateLimitError` carries the provider name and
an optional `retry_after` hint. -/
structure RateLimitError where
  provider_name : String
  retry_after : Option Rat
deriving Repr

/-- Modelled from the tests: `RateLimitError(provider)` with `retry_after`
omitted — the constructor defaults it to `None`. -/
def rateLimitDefault (provider_name : String) : RateLimitError :=
  { provider_name := provider_name, retry_after := none }

/-- C10: every error type the library raises is a subclass of the single
base `ChainReaderError`; `RateLimitError` is additionally a subclass of
`ProviderError`; and a `RateLimitError` built without a `retry_after`
argument carries `retry_after = None`. -/
theorem exception_hierarchy :
    (∀ t : ExcType, isSubclass t ExcType.chainReaderError = true) ∧
    isSubclass ExcType.rateLimitError ExcType.providerError = true ∧
    (∀ s : String, (rateLimitDefault s).retry_after = none) := by
  refine ⟨?_, by decide, fun s => rfl⟩
  intro t
  cases t <;> rfl

end ChainReader
